import Mathlib

/-!
Verification development for the wall-of-wish repository: a Solana dApp
whose core is an on-chain account-storage program (submitWish / deleteWish
instructions over PDA-addressed wish records) plus a TypeScript client
(`findWishPDA`, `fetchWishes`, `submitWish`, `deleteWish` in
src/lib/auth-helpers.ts and the IDL in src/lib/anchor/idl.ts).

The on-chain Rust program (`programs/wall-of-wish/src/lib.rs`) is not part
of the source tree here; only its IDL, tests and client callers are.  Where
a definition embeds that missing program it is marked `Modelled from the
spec:` and follows the specification's words (record layout, create/delete
semantics, error taxonomy).  Everything else is translated directly from
the TypeScript source.

Bytes are modelled as `List Nat` (each entry a byte value), addresses as
`Nat`, and the ledger as a function from addresses to optional raw account
bytes, per the spec's "address → optional record" storage abstraction.
-/

set_option autoImplicit false

namespace WallOfWish

/-- Raw byte strings (public keys, titles, serialized accounts). -/
abbrev Bytes := List Nat

/-- Storage addresses (opaque identifiers produced by derivation). -/
abbrev Addr := Nat

/-- The ledger: an explicit address → optional raw-record mapping, as the
spec's design notes prescribe for the global account state. -/
abbrev Ledger := Addr → Option Bytes

/-- The empty ledger: no address holds a record. -/
def emptyLedger : Ledger := fun _ => none

/-- Modelled from the spec: the fixed account discriminator.  The spec fixes
its size implicitly through the client's memcmp at offset 8
(src/lib/auth-helpers.ts, fetchWishes), i.e. 8 bytes; the concrete byte
values live in the missing on-chain program, so an arbitrary fixed 8-byte
tag is used. -/
def WISH_DISC : Bytes := [212, 103, 44, 21, 87, 9, 170, 58]

/-- Little-endian 4-byte encoding of a length, as in the spec's
`[title_len: 4-byte little-endian unsigned]` field. -/
def u32le (n : Nat) : Bytes :=
  [n % 256, n / 256 % 256, n / 65536 % 256, n / 16777216 % 256]

/-- Inverse of `u32le` on 4-byte buffers. -/
def leU32 (bs : Bytes) : Nat :=
  match bs with
  | [a, b, c, d] => a + 256 * b + 65536 * c + 16777216 * d
  | _ => 0

/-- Modelled from the spec: the persisted record layout
`[discriminator: 8 bytes][owner: 32-byte public key][title_len: 4-byte LE]
[title: title_len UTF-8 bytes]` (spec §6); the serializer itself is in the
missing on-chain program / Anchor runtime. -/
def encodeWish (owner title : Bytes) : Bytes :=
  WISH_DISC ++ owner ++ u32le title.length ++ title

/-- Decoding failures of the read path (spec §4.2 read path). -/
inductive DecodeError where
  | WrongAccountType
  | CorruptRecord
deriving DecidableEq

/-- Modelled from the spec: the read path.  Rejects a wrong discriminator
with `WrongAccountType` and a length prefix inconsistent with the remaining
buffer with `CorruptRecord`; otherwise yields `(owner, title)`. -/
def decodeWish (buf : Bytes) : Except DecodeError (Bytes × Bytes) :=
  if buf.take 8 ≠ WISH_DISC then .error .WrongAccountType
  else if buf.length < 44 then .error .CorruptRecord
  else
    let owner := (buf.drop 8).take 32
    let n := leU32 ((buf.drop 40).take 4)
    let title := buf.drop 44
    if title.length = n then .ok (owner, title) else .error .CorruptRecord

/-- Owner bytes at their fixed offset (right after the 8-byte
discriminator), as used by the on-chain authorization check and by the
client's memcmp filter at offset 8. -/
def storedOwner (buf : Bytes) : Bytes :=
  (buf.drop 8).take 32

/-- Modelled from the spec: maximal title byte length the storage layer
accepts (the allocated capacity bound; the concrete constant is in the
missing on-chain program).  The client separately enforces 100 characters
(WishForm maxLength). -/
def MAX_TITLE_LEN : Nat := 200

/-- Modelled from the spec: total account byte capacity
`N + 32 + 4 + title_len`, bounded by the allocation maximum. -/
def ACCOUNT_CAPACITY : Nat := 8 + 32 + 4 + MAX_TITLE_LEN

/-- Byte size of the encoded record, `discriminator + pubkey + length
prefix + title` (spec §4.2 Create effect). -/
def recordSize (title : Bytes) : Nat := 8 + 32 + 4 + title.length

/-- Modelled from the spec: the minimum custodial deposit, a rent-equivalent
reserve sized to the record's byte length. -/
def depositFor (title : Bytes) : Nat := recordSize title

/-! ## Address derivation

The derivation is performed by `PublicKey.findProgramAddress` of the
platform SDK, called from `findWishPDA` (src/lib/auth-helpers.ts) with the
seeds `["wish", owner, title]`.  The hashing construction and the curve
test live in the SDK, outside the source tree, so they are abstracted as
parameters: `hash` folds a seed list together with a trial bump nonce to an
address, `onCurve` is the valid-curve-point test. -/

/-- A one-way fold of seed components and a bump nonce into an address
(abstract stand-in for the SDK's SHA-256 based construction). -/
abbrev HashFn := List Bytes → Nat → Addr

/-- Test whether an address is a valid point on the public-key curve. -/
abbrev CurveTest := Addr → Bool

/-- Modelled from the spec: the downward bump search.  `findBumpAux h c
seeds b` tries bumps `b, b-1, …, 0` and returns the first `(address, bump)`
whose address is off-curve, or `none` when every one of them is on-curve. -/
def findBumpAux (hash : HashFn) (onCurve : CurveTest) (seeds : List Bytes) :
    Nat → Option (Addr × Nat)
  | 0 =>
    let a := hash seeds 0
    if onCurve a then none else some (a, 0)
  | b + 1 =>
    let a := hash seeds (b + 1)
    if onCurve a then findBumpAux hash onCurve seeds b else some (a, b + 1)

/-- Modelled from the spec: `derive(namespace_tag, owner, title)` —
`findProgramAddress` semantics, searching the bump downward from 255. -/
def deriveAddress (hash : HashFn) (onCurve : CurveTest) (seeds : List Bytes) :
    Option (Addr × Nat) :=
  findBumpAux hash onCurve seeds 255

/-- The namespace tag `"wish"` (UTF-8), from `Buffer.from("wish")` in
`findWishPDA`. -/
def WISH_NS : Bytes := [119, 105, 115, 104]

/-- `findWishPDA` (src/lib/auth-helpers.ts): derives the PDA for a wish
from the seeds `["wish", owner, title]`. -/
def findWishPDA (hash : HashFn) (onCurve : CurveTest) (owner title : Bytes) :
    Option (Addr × Nat) :=
  deriveAddress hash onCurve [WISH_NS, owner, title]

/-! ## The on-chain storage program

The `submitWish` and `deleteWish` instructions are declared in the IDL
(src/lib/anchor/idl.ts) with accounts `wish` (mutable PDA), `user`
(mutable signer) and `systemProgram`; their bodies live in the missing
`programs/wall-of-wish/src/lib.rs` and are modelled from the spec
(§4.2 operations, error taxonomy §7). -/

/-- The spec's error taxonomy (§4.2 / §7). -/
inductive ProgError where
  | AddressMismatch
  | AlreadyExists
  | InsufficientFunds
  | TitleTooLong
  | Unauthorized
  | NotFound
deriving DecidableEq

namespace Prog

/-- Modelled from the spec: `Create(owner_signature, title)` against a
caller-supplied target address.  Re-derives the address from
`(NAMESPACE, signer, title)` and compares before anything else touches the
ledger; validates the encoded size against the allocated capacity; requires
the address to be Empty; debits the custodial deposit; writes
discriminator, owner and title.  `sigValid` stands for the platform's
signature verification of `signer`. -/
def submitWish (hash : HashFn) (onCurve : CurveTest) (sigValid : Bool)
    (signer title : Bytes) (supplied : Addr) (funds : Nat) (ledger : Ledger) :
    Except ProgError Ledger :=
  if ¬sigValid then .error .Unauthorized
  else
    match findWishPDA hash onCurve signer title with
    | none => .error .AddressMismatch
    | some (addr, _bump) =>
      if supplied ≠ addr then .error .AddressMismatch
      else if ACCOUNT_CAPACITY < recordSize title then .error .TitleTooLong
      else
        match ledger supplied with
        | some _ => .error .AlreadyExists
        | none =>
          if funds < depositFor title then .error .InsufficientFunds
          else .ok (fun a => if a = supplied then some (encodeWish signer title) else ledger a)

/-- Modelled from the spec: `Delete(owner_signature, title)` against a
caller-supplied target address.  Requires the address to be Occupied;
re-derives the address from the record's stored owner (the owner embedded
in the derivation inputs, per the existence invariant) and compares;
then the sole authorization check: the stored owner must equal the signer;
on success zeroes the record and returns the address to Empty. -/
def deleteWish (hash : HashFn) (onCurve : CurveTest) (sigValid : Bool)
    (signer title : Bytes) (supplied : Addr) (ledger : Ledger) :
    Except ProgError Ledger :=
  if ¬sigValid then .error .Unauthorized
  else
    match ledger supplied with
    | none => .error .NotFound
    | some buf =>
      match findWishPDA hash onCurve (storedOwner buf) title with
      | none => .error .AddressMismatch
      | some (addr, _bump) =>
        if supplied ≠ addr then .error .AddressMismatch
        else if storedOwner buf ≠ signer then .error .Unauthorized
        else .ok (fun a => if a = supplied then none else ledger a)

end Prog

/-- Ledger state after an operation: a failed operation aborts atomically
and leaves the previous ledger in place (spec §4.2 atomicity guarantee). -/
def applyOp (ledger : Ledger) (r : Except ProgError Ledger) : Ledger :=
  match r with
  | .ok l => l
  | .error _ => ledger

/-! ## The client layer (src/lib/auth-helpers.ts)

`fetchWishes` and the client-side `deleteWish` guard are translated from
the TypeScript source.  A fetched wish mirrors the `WishAccount` interface:
a public key plus an account body `{ user, title }`. -/

/-- The `account` body of a fetched wish (`WishAccount.account`). -/
structure WishData where
  user : Bytes
  title : Bytes
deriving DecidableEq

/-- A fetched wish (`WishAccount`): the account's address plus its decoded
body. -/
structure WishAccount where
  publicKey : Addr
  account : WishData
deriving DecidableEq

namespace Client

/-- The RPC-side memcmp filter `{ offset: 8, bytes: owner }` used by
`fetchWishes`: compares the 32 owner bytes right after the discriminator. -/
def memcmpOwnerAt8 (owner : Bytes) (data : Bytes) : Bool :=
  decide ((data.drop 8).take 32 = owner)

/-- `fetchWishes` (src/lib/auth-helpers.ts), the pure core of the logged-in
path: a linear scan of the program's accounts filtered by the owner bytes
at offset 8 (the RPC memcmp), decoded by the account layout (Anchor's
`account.aWish.all`, which drops accounts of a different type), filtered
again client-side by `wish.account.user = publicKey`, and sorted by the
account's public key. -/
def fetchWishes (owner : Bytes) (accounts : List (Addr × Bytes)) :
    List WishAccount :=
  let filtered := accounts.filter (fun a => memcmpOwnerAt8 owner a.2)
  let formattedWishes := filtered.filterMap (fun a =>
    match decodeWish a.2 with
    | .ok (u, t) => some (WishAccount.mk a.1 (WishData.mk u t))
    | .error _ => none)
  let userWishes := formattedWishes.filter (fun w => decide (w.account.user = owner))
  userWishes.mergeSort (fun x y => decide (x.publicKey ≤ y.publicKey))

/-- A delete transaction as the client builds it: the derived wish PDA, the
signer, and the title argument. -/
structure DeleteTx where
  wish : Addr
  user : Bytes
  title : Bytes
deriving DecidableEq

/-- `deleteWish` (src/lib/auth-helpers.ts), the pure control flow up to the
point the transaction is built: wallet checks, PDA derivation for
`(publicKey, title)`, then the ownership guard — the wish public key must
be present in the fetched list and its stored user must equal the connected
signer — and only then is the delete transaction assembled. -/
def deleteWish (hash : HashFn) (onCurve : CurveTest) (hasWallet : Bool)
    (publicKey : Option Bytes) (wishes : List WishAccount)
    (title : Bytes) (wishPublicKey : Addr) : Except String DeleteTx :=
  if ¬hasWallet then .error "Wallet not connected"
  else
    match publicKey with
    | none => .error "Wallet public key not available"
    | some pk =>
      match findWishPDA hash onCurve pk title with
      | none => .error "Unable to find a viable program address"
      | some (wishPDA, _bump) =>
        match wishes.find? (fun w => decide (w.publicKey = wishPublicKey)) with
        | none => .error "You can only delete your own wishes"
        | some wishData =>
          if wishData.account.user ≠ pk then .error "You can only delete your own wishes"
          else .ok (DeleteTx.mk wishPDA pk title)

/-- Effect of the client call on the ledger: only a successfully built and
submitted transaction can change it; an exception thrown before the
transaction is built leaves the ledger untouched. -/
def resultLedger (hash : HashFn) (onCurve : CurveTest)
    (r : Except String DeleteTx) (ledger : Ledger) : Ledger :=
  match r with
  | .error _ => ledger
  | .ok tx => applyOp ledger (Prog.deleteWish hash onCurve true tx.user tx.title tx.wish ledger)

end Client

/-! ## Helper lemmas -/

theorem length_WISH_DISC : WISH_DISC.length = 8 := rfl

theorem length_u32le (n : Nat) : (u32le n).length = 4 := rfl

theorem leU32_u32le (n : Nat) : leU32 (u32le n) = n % 4294967296 := by
  simp only [u32le, leU32]
  omega

theorem take8_encodeWish (o t : Bytes) : (encodeWish o t).take 8 = WISH_DISC := by
  have h : (encodeWish o t).take 8 = (WISH_DISC ++ (o ++ u32le t.length ++ t)).take WISH_DISC.length := by
    simp [encodeWish, length_WISH_DISC]
  rw [h, List.take_left]

theorem drop8_encodeWish (o t : Bytes) :
    (encodeWish o t).drop 8 = o ++ u32le t.length ++ t := by
  have h : (encodeWish o t).drop 8 = (WISH_DISC ++ (o ++ u32le t.length ++ t)).drop WISH_DISC.length := by
    simp [encodeWish, length_WISH_DISC]
  rw [h, List.drop_left]

theorem storedOwner_encodeWish (o t : Bytes) (ho : o.length = 32) :
    storedOwner (encodeWish o t) = o := by
  rw [storedOwner, drop8_encodeWish]
  rw [List.append_assoc, ← ho, List.take_left]

theorem length_encodeWish (o t : Bytes) (ho : o.length = 32) :
    (encodeWish o t).length = 44 + t.length := by
  simp [encodeWish, ho, length_WISH_DISC, length_u32le]
  omega

theorem drop40_encodeWish (o t : Bytes) (ho : o.length = 32) :
    (encodeWish o t).drop 40 = u32le t.length ++ t := by
  have h : (encodeWish o t).drop 40 = ((encodeWish o t).drop 8).drop 32 := by
    rw [List.drop_drop]
  rw [h, drop8_encodeWish, List.append_assoc, ← ho, List.drop_left]

theorem drop44_encodeWish (o t : Bytes) (ho : o.length = 32) :
    (encodeWish o t).drop 44 = t := by
  have h : (encodeWish o t).drop 44 = ((encodeWish o t).drop 40).drop 4 := by
    rw [List.drop_drop]
  rw [h, drop40_encodeWish o t ho, ← length_u32le t.length, List.drop_left]

theorem decode_encodeWish (o t : Bytes) (ho : o.length = 32)
    (ht : t.length < 4294967296) :
    decodeWish (encodeWish o t) = .ok (o, t) := by
  rw [decodeWish]
  rw [if_neg (by rw [take8_encodeWish]; exact fun h => h rfl)]
  rw [if_neg (by rw [length_encodeWish o t ho]; omega)]
  simp only [drop40_encodeWish o t ho, drop44_encodeWish o t ho]
  rw [show (u32le t.length ++ t).take 4 = u32le t.length by
    rw [← length_u32le t.length, List.take_left]]
  rw [leU32_u32le, if_pos (by omega)]
  rw [drop8_encodeWish, List.append_assoc, ← ho, List.take_left]

theorem findBumpAux_eq_none_iff (hash : HashFn) (onCurve : CurveTest)
    (seeds : List Bytes) (b : Nat) :
    findBumpAux hash onCurve seeds b = none ↔
      ∀ i ≤ b, onCurve (hash seeds i) = true := by
  induction b with
  | zero =>
    simp only [findBumpAux]
    constructor
    · intro h i hi
      by_cases hc : onCurve (hash seeds 0)
      · interval_cases i
        exact hc
      · simp [hc] at h
    · intro h
      rw [if_pos (h 0 (Nat.le_refl 0))]
  | succ b ih =>
    simp only [findBumpAux]
    by_cases hc : onCurve (hash seeds (b + 1))
    · rw [if_pos hc, ih]
      constructor
      · intro h i hi
        rcases Nat.lt_or_ge i (b + 1) with hlt | hge
        · exact h i (Nat.lt_succ_iff.mp hlt)
        · have : i = b + 1 := Nat.le_antisymm hi hge
          rw [this]
          exact hc
      · intro h i hi
        exact h i (Nat.le_succ_of_le hi)
    · rw [if_neg hc]
      constructor
      · intro h
        exact absurd h (by simp)
      · intro h
        exact absurd (h (b + 1) (Nat.le_refl _)) hc

theorem findBumpAux_eq_some (hash : HashFn) (onCurve : CurveTest)
    (seeds : List Bytes) (b : Nat) (a : Addr) (k : Nat)
    (h : findBumpAux hash onCurve seeds b = some (a, k)) :
    a = hash seeds k ∧ onCurve a = false ∧ k ≤ b ∧
      ∀ i, k < i → i ≤ b → onCurve (hash seeds i) = true := by
  induction b with
  | zero =>
    simp only [findBumpAux] at h
    by_cases hc : onCurve (hash seeds 0)
    · simp [hc] at h
    · rw [if_neg hc] at h
      obtain ⟨ha, hk⟩ := by simpa using h
      subst ha; subst hk
      refine ⟨rfl, by simpa using hc, Nat.le_refl 0, ?_⟩
      intro i hi hi'
      omega
  | succ b ih =>
    simp only [findBumpAux] at h
    by_cases hc : onCurve (hash seeds (b + 1))
    · rw [if_pos hc] at h
      obtain ⟨ha, hcf, hkb, hmax⟩ := ih h
      refine ⟨ha, hcf, Nat.le_succ_of_le hkb, ?_⟩
      intro i hi hi'
      rcases Nat.lt_or_ge i (b + 1) with hlt | hge
      · exact hmax i hi (Nat.lt_succ_iff.mp hlt)
      · have : i = b + 1 := Nat.le_antisymm hi' hge
        rw [this]
        exact hc
    · rw [if_neg hc] at h
      obtain ⟨ha, hk⟩ := by simpa using h
      subst ha; subst hk
      refine ⟨rfl, by simpa using hc, Nat.le_refl _, ?_⟩
      intro i hi hi'
      omega

/-- A buffer whose first eight bytes are not the expected discriminator is
rejected as `WrongAccountType` (spec §4.2 read path). -/
theorem decodeWish_wrongDisc (buf : Bytes) (h : buf.take 8 ≠ WISH_DISC) :
    decodeWish buf = .error .WrongAccountType := by
  rw [decodeWish, if_pos h]

/-- Flip (complement) the first byte of a buffer. -/
def flipFirstByte (buf : Bytes) : Bytes :=
  match buf with
  | [] => []
  | b :: rest => (b ^^^ 255) :: rest

theorem take8_cons_ne (x : Nat) (l : Bytes) (hx : x ≠ 212) :
    (x :: l).take 8 ≠ WISH_DISC := by
  intro h
  rw [show (8 : Nat) = 7 + 1 from rfl, List.take_succ_cons] at h
  rw [show WISH_DISC = 212 :: [103, 44, 21, 87, 9, 170, 58] from rfl] at h
  injection h with h1 _
  exact hx h1

/-! ## Concrete instances used by the witnesses

A toy hashing construction and curve tests, plus two distinct owner keys
and a title, to instantiate the parametric theorems on computable data. -/

namespace W

/-- A concrete seed fold: separates seed lists by the first byte of the
second seed component (the owner), keeping bump values in disjoint blocks. -/
def offHash : HashFn := fun seeds b => 65536 * ((seeds.drop 1).headD []).headD 0 + b

/-- A curve test under which every address is off-curve. -/
def noCurve : CurveTest := fun _ => false

/-- A curve test under which every address is a valid curve point. -/
def allCurve : CurveTest := fun _ => true

/-- A 32-byte owner key. -/
def ownerA : Bytes := List.replicate 32 1

/-- A second, distinct 32-byte owner key. -/
def ownerB : Bytes := List.replicate 32 2

/-- A short title, the UTF-8 bytes of `"hi"`. -/
def titleW : Bytes := [104, 105]

theorem offHash_head (x : Nat) (xs t : Bytes) (b : Nat) :
    offHash [WISH_NS, x :: xs, t] b = 65536 * x + b := rfl

theorem offHash_nocoll (t : Bytes) : ∀ b1, b1 ≤ 255 → ∀ b2, b2 ≤ 255 →
    offHash [WISH_NS, ownerA, t] b1 ≠ offHash [WISH_NS, ownerB, t] b2 := by
  intro b1 h1 b2 h2
  have e1 : offHash [WISH_NS, ownerA, t] b1 = 65536 * 1 + b1 := rfl
  have e2 : offHash [WISH_NS, ownerB, t] b2 = 65536 * 2 + b2 := rfl
  rw [e1, e2]
  show (65536 * 1 + b1 : Nat) ≠ (65536 * 2 + b2 : Nat)
  omega

end W

/-! ## Claims -/

/-- C1: Address derivation is deterministic — `findWishPDA` is a pure
function of the namespace tag (fixed to `"wish"`), the owner public key and
the title: two calls on equal inputs return the identical `(address, bump)`
pair, with no dependence on anything beyond the inputs and the (abstracted)
hashing construction and curve test. -/
theorem findWishPDA_deterministic (hash : HashFn) (onCurve : CurveTest)
    (o1 o2 t1 t2 : Bytes) (ho : o1 = o2) (ht : t1 = t2) :
    findWishPDA hash onCurve o1 t1 = findWishPDA hash onCurve o2 t2 := by
  rw [ho, ht]

theorem findWishPDA_deterministic_witness :
    findWishPDA W.offHash W.noCurve W.ownerA W.titleW =
      findWishPDA W.offHash W.noCurve W.ownerA W.titleW :=
  findWishPDA_deterministic W.offHash W.noCurve W.ownerA W.ownerA W.titleW W.titleW rfl rfl

/-- C5: The derivation folds the seed components with a trial bump nonce
searched downward from 255: it returns `none` exactly when all 256 nonces
produce valid curve points, and a returned `(address, bump)` is the hash of
the seeds with that bump, is off-curve, and every larger bump up to 255
hashed to a valid curve point (i.e. the search went downward from 255). -/
theorem deriveAddress_bump_search_spec (hash : HashFn) (onCurve : CurveTest)
    (seeds : List Bytes) :
    (deriveAddress hash onCurve seeds = none ↔
      ∀ b ≤ 255, onCurve (hash seeds b) = true) ∧
    (∀ a k, deriveAddress hash onCurve seeds = some (a, k) →
      a = hash seeds k ∧ onCurve a = false ∧ k ≤ 255 ∧
        ∀ i, k < i → i ≤ 255 → onCurve (hash seeds i) = true) := by
  refine ⟨findBumpAux_eq_none_iff hash onCurve seeds 255, ?_⟩
  intro a k h
  exact findBumpAux_eq_some hash onCurve seeds 255 a k h

theorem deriveAddress_bump_search_spec_witness :
    deriveAddress W.offHash W.allCurve [WISH_NS, W.ownerA, W.titleW] = none :=
  (deriveAddress_bump_search_spec W.offHash W.allCurve
    [WISH_NS, W.ownerA, W.titleW]).1.mpr (fun _ _ => rfl)

/-- C4: The persisted record layout is exactly
`[discriminator: 8 bytes][owner: 32 bytes][title_len: 4-byte LE][title]`
with total capacity `8 + 32 + 4 + title_len`; encoding then decoding an
`(owner, title)` record with a title up to the maximum allowed length
yields back exactly `(owner, title)`, and decoding the same buffer with its
discriminator byte flipped yields `WrongAccountType`. -/
theorem wishRecord_layout_roundtrip (o t : Bytes) (ho : o.length = 32)
    (ht : t.length ≤ MAX_TITLE_LEN) :
    encodeWish o t = WISH_DISC ++ o ++ u32le t.length ++ t ∧
    (encodeWish o t).length = 8 + 32 + 4 + t.length ∧
    decodeWish (encodeWish o t) = .ok (o, t) ∧
    decodeWish (flipFirstByte (encodeWish o t)) = .error .WrongAccountType := by
  refine ⟨rfl, ?_, ?_, ?_⟩
  · rw [length_encodeWish o t ho]
  · exact decode_encodeWish o t ho (by
      have : MAX_TITLE_LEN = 200 := rfl
      omega)
  · have hx : (212 : Nat) ^^^ 255 = 43 := by decide
    have hflip : flipFirstByte (encodeWish o t) =
        ((212 : Nat) ^^^ 255) :: ((([103, 44, 21, 87, 9, 170, 58] ++ o) ++ u32le t.length) ++ t) := rfl
    rw [hflip, hx]
    exact decodeWish_wrongDisc _ (take8_cons_ne 43 _ (by omega))

theorem wishRecord_layout_roundtrip_witness :
    decodeWish (encodeWish W.ownerA W.titleW) = .ok (W.ownerA, W.titleW) :=
  (wishRecord_layout_roundtrip W.ownerA W.titleW (by decide) (by decide)).2.2.1

/-! ## Operation unfolding lemmas -/

theorem submitWish_ok (hash : HashFn) (onCurve : CurveTest)
    (owner title : Bytes) (addr : Addr) (bump funds : Nat) (ledger : Ledger)
    (hderive : findWishPDA hash onCurve owner title = some (addr, bump))
    (hfit : recordSize title ≤ ACCOUNT_CAPACITY)
    (hfunds : depositFor title ≤ funds)
    (hempty : ledger addr = none) :
    Prog.submitWish hash onCurve true owner title addr funds ledger =
      .ok (fun a => if a = addr then some (encodeWish owner title) else ledger a) := by
  rw [Prog.submitWish, if_neg (fun h => h rfl), hderive]
  simp only
  rw [if_neg (fun h => h rfl), if_neg (by omega), hempty]
  simp only
  rw [if_neg (by omega)]

theorem submitWish_occupied (hash : HashFn) (onCurve : CurveTest)
    (owner title : Bytes) (addr : Addr) (bump funds : Nat) (ledger : Ledger)
    (buf : Bytes)
    (hderive : findWishPDA hash onCurve owner title = some (addr, bump))
    (hfit : recordSize title ≤ ACCOUNT_CAPACITY)
    (hocc : ledger addr = some buf) :
    Prog.submitWish hash onCurve true owner title addr funds ledger =
      .error .AlreadyExists := by
  rw [Prog.submitWish, if_neg (fun h => h rfl), hderive]
  simp only
  rw [if_neg (fun h => h rfl), if_neg (by omega), hocc]

theorem deleteWish_ok (hash : HashFn) (onCurve : CurveTest)
    (signer title buf : Bytes) (supplied : Addr) (bump : Nat) (ledger : Ledger)
    (hocc : ledger supplied = some buf)
    (hderive : findWishPDA hash onCurve (storedOwner buf) title = some (supplied, bump))
    (hauth : storedOwner buf = signer) :
    Prog.deleteWish hash onCurve true signer title supplied ledger =
      .ok (fun a => if a = supplied then none else ledger a) := by
  rw [Prog.deleteWish, if_neg (fun h => h rfl), hocc]
  simp only
  rw [hderive]
  simp only
  rw [if_neg (fun h => h rfl), if_neg (fun h => h hauth)]

theorem deleteWish_notOwner (hash : HashFn) (onCurve : CurveTest)
    (signer title buf : Bytes) (supplied : Addr) (bump : Nat) (ledger : Ledger)
    (hocc : ledger supplied = some buf)
    (hderive : findWishPDA hash onCurve (storedOwner buf) title = some (supplied, bump))
    (hne : storedOwner buf ≠ signer) :
    Prog.deleteWish hash onCurve true signer title supplied ledger =
      .error .Unauthorized := by
  rw [Prog.deleteWish, if_neg (fun h => h rfl), hocc]
  simp only
  rw [hderive]
  simp only
  rw [if_neg (fun h => h rfl), if_pos hne]

theorem deleteWish_empty (hash : HashFn) (onCurve : CurveTest)
    (signer title : Bytes) (supplied : Addr) (ledger : Ledger)
    (hempty : ledger supplied = none) :
    Prog.deleteWish hash onCurve true signer title supplied ledger =
      .error .NotFound := by
  rw [Prog.deleteWish, if_neg (fun h => h rfl), hempty]

/-- C2: Delete by a signer whose key differs from the record's stored owner
fails with `Unauthorized` and leaves the record unmodified — the address
stays Occupied with the same stored bytes — and the stored-owner-equals-
signer comparison is the sole authorization check: whenever it succeeds,
the delete goes through. -/
theorem deleteWish_sole_auth_check (hash : HashFn) (onCurve : CurveTest)
    (signer title buf : Bytes) (supplied : Addr) (bump : Nat) (ledger : Ledger)
    (hocc : ledger supplied = some buf)
    (hderive : findWishPDA hash onCurve (storedOwner buf) title = some (supplied, bump)) :
    (storedOwner buf ≠ signer →
      Prog.deleteWish hash onCurve true signer title supplied ledger = .error .Unauthorized ∧
      applyOp ledger (Prog.deleteWish hash onCurve true signer title supplied ledger) = ledger ∧
      applyOp ledger (Prog.deleteWish hash onCurve true signer title supplied ledger) supplied
        = some buf) ∧
    (storedOwner buf = signer →
      Prog.deleteWish hash onCurve true signer title supplied ledger =
        .ok (fun a => if a = supplied then none else ledger a)) := by
  constructor
  · intro hne
    have herr := deleteWish_notOwner hash onCurve signer title buf supplied bump ledger
      hocc hderive hne
    rw [herr]
    exact ⟨rfl, rfl, hocc⟩
  · intro hauth
    exact deleteWish_ok hash onCurve signer title buf supplied bump ledger hocc hderive hauth

theorem deleteWish_sole_auth_check_witness :
    Prog.deleteWish W.offHash W.noCurve true W.ownerB W.titleW 65791
      (fun a => if a = 65791 then some (encodeWish W.ownerA W.titleW) else none)
      = .error .Unauthorized :=
  ((deleteWish_sole_auth_check W.offHash W.noCurve W.ownerB W.titleW
      (encodeWish W.ownerA W.titleW) 65791 255
      (fun a => if a = 65791 then some (encodeWish W.ownerA W.titleW) else none)
      (by simp) (by decide)).1 (by decide)).1

/-- C3: Per-address lifecycle.  On an address that holds no record, Delete
fails with `NotFound`; Create succeeds and writes the record; Create again
without an intervening Delete fails with `AlreadyExists` and does not
overwrite the record; Delete by the owner succeeds and returns the address
to Empty; Create again after the Delete succeeds at the identical
re-derived address. -/
theorem create_delete_lifecycle (hash : HashFn) (onCurve : CurveTest)
    (owner title : Bytes) (addr : Addr) (bump funds : Nat) (ledger : Ledger)
    (ho : owner.length = 32)
    (hderive : findWishPDA hash onCurve owner title = some (addr, bump))
    (hfit : recordSize title ≤ ACCOUNT_CAPACITY)
    (hfunds : depositFor title ≤ funds)
    (hempty : ledger addr = none) :
    Prog.deleteWish hash onCurve true owner title addr ledger = .error .NotFound ∧
    ∃ L1, Prog.submitWish hash onCurve true owner title addr funds ledger = .ok L1 ∧
      L1 addr = some (encodeWish owner title) ∧
      Prog.submitWish hash onCurve true owner title addr funds L1 = .error .AlreadyExists ∧
      applyOp L1 (Prog.submitWish hash onCurve true owner title addr funds L1) addr
        = some (encodeWish owner title) ∧
      ∃ L2, Prog.deleteWish hash onCurve true owner title addr L1 = .ok L2 ∧
        L2 addr = none ∧
        ∃ L3, Prog.submitWish hash onCurve true owner title addr funds L2 = .ok L3 ∧
          L3 addr = some (encodeWish owner title) := by
  have hso : storedOwner (encodeWish owner title) = owner :=
    storedOwner_encodeWish owner title ho
  refine ⟨deleteWish_empty hash onCurve owner title addr ledger hempty, ?_⟩
  refine ⟨_, submitWish_ok hash onCurve owner title addr bump funds ledger
    hderive hfit hfunds hempty, if_pos rfl, ?_, ?_, ?_⟩
  · exact submitWish_occupied hash onCurve owner title addr bump funds _
      (encodeWish owner title) hderive hfit (if_pos rfl)
  · rw [submitWish_occupied hash onCurve owner title addr bump funds _
      (encodeWish owner title) hderive hfit (if_pos rfl)]
    exact if_pos rfl
  · refine ⟨_, deleteWish_ok hash onCurve owner title (encodeWish owner title)
      addr bump _ (if_pos rfl) (by rw [hso]; exact hderive) hso, if_pos rfl, ?_⟩
    refine ⟨_, submitWish_ok hash onCurve owner title addr bump funds _
      hderive hfit hfunds (if_pos rfl), if_pos rfl⟩

theorem create_delete_lifecycle_witness :
    Prog.deleteWish W.offHash W.noCurve true W.ownerA W.titleW 65791 emptyLedger
      = .error .NotFound :=
  (create_delete_lifecycle W.offHash W.noCurve W.ownerA W.titleW 65791 255 300
    emptyLedger (by decide) (by decide) (by decide) (by decide) rfl).1

/-- C6: For every Create and every Delete invocation, the caller-supplied
target address is re-derived and compared before the operation proceeds:
a supplied address differing from the derivation fails with
`AddressMismatch`, and an operation that succeeds did so at exactly the
address derived from `(NAMESPACE, owner, title)` — for Create the signing
owner, for Delete the record's stored owner. -/
theorem address_reverification (hash : HashFn) (onCurve : CurveTest)
    (signer title : Bytes) (supplied : Addr) (funds : Nat) (ledger : Ledger) :
    (∀ addr bump, findWishPDA hash onCurve signer title = some (addr, bump) →
      supplied ≠ addr →
      Prog.submitWish hash onCurve true signer title supplied funds ledger
        = .error .AddressMismatch) ∧
    (∀ L, Prog.submitWish hash onCurve true signer title supplied funds ledger = .ok L →
      ∃ bump, findWishPDA hash onCurve signer title = some (supplied, bump)) ∧
    (∀ buf addr bump, ledger supplied = some buf →
      findWishPDA hash onCurve (storedOwner buf) title = some (addr, bump) →
      supplied ≠ addr →
      Prog.deleteWish hash onCurve true signer title supplied ledger
        = .error .AddressMismatch) ∧
    (∀ L, Prog.deleteWish hash onCurve true signer title supplied ledger = .ok L →
      ∃ buf bump, ledger supplied = some buf ∧
        findWishPDA hash onCurve (storedOwner buf) title = some (supplied, bump)) := by
  refine ⟨?_, ?_, ?_, ?_⟩
  · intro addr bump hderive hne
    rw [Prog.submitWish, if_neg (fun h => h rfl), hderive]
    simp only
    rw [if_pos hne]
  · intro L hok
    rw [Prog.submitWish, if_neg (fun h => h rfl)] at hok
    rcases hpda : findWishPDA hash onCurve signer title with _ | ⟨addr, bump⟩
    · rw [hpda] at hok
      exact absurd hok (by simp)
    · rw [hpda] at hok
      simp only at hok
      by_cases hne : supplied = addr
      · subst hne
        exact ⟨bump, rfl⟩
      · rw [if_pos hne] at hok
        exact absurd hok (by simp)
  · intro buf addr bump hocc hderive hne
    rw [Prog.deleteWish, if_neg (fun h => h rfl), hocc]
    simp only
    rw [hderive]
    simp only
    rw [if_pos hne]
  · intro L hok
    rw [Prog.deleteWish, if_neg (fun h => h rfl)] at hok
    rcases hbuf : ledger supplied with _ | buf
    · rw [hbuf] at hok
      exact absurd hok (by simp)
    · rw [hbuf] at hok
      simp only at hok
      rcases hpda : findWishPDA hash onCurve (storedOwner buf) title with _ | ⟨addr, bump⟩
      · rw [hpda] at hok
        exact absurd hok (by simp)
      · rw [hpda] at hok
        simp only at hok
        by_cases hne : supplied = addr
        · subst hne
          exact ⟨buf, bump, rfl, hpda⟩
        · rw [if_pos hne] at hok
          exact absurd hok (by simp)

theorem address_reverification_witness :
    Prog.submitWish W.offHash W.noCurve true W.ownerA W.titleW 7 300 emptyLedger
      = .error .AddressMismatch :=
  (address_reverification W.offHash W.noCurve W.ownerA W.titleW 7 300
    emptyLedger).1 65791 255 (by decide) (by decide)

/-- C7: Distinct `(owner, title)` pairs map to distinct addresses: assuming
the hashing construction is collision-free on the two seed lists (the
spec's "with overwhelming probability" idealization), two different owner
keys with the same title derive different addresses, and Create by the
second owner succeeds independently of the first owner's existing record,
which is left in place at its own address. -/
theorem distinct_owners_distinct_addresses (hash : HashFn) (onCurve : CurveTest)
    (ownA ownB title : Bytes) (addrA bumpA addrB bumpB funds : Nat) (ledger : Ledger)
    (hcoll : ∀ b1, b1 ≤ 255 → ∀ b2, b2 ≤ 255 →
      hash [WISH_NS, ownA, title] b1 ≠ hash [WISH_NS, ownB, title] b2)
    (hA : findWishPDA hash onCurve ownA title = some (addrA, bumpA))
    (hB : findWishPDA hash onCurve ownB title = some (addrB, bumpB))
    (hfit : recordSize title ≤ ACCOUNT_CAPACITY)
    (hfunds : depositFor title ≤ funds)
    (hAocc : ledger addrA = some (encodeWish ownA title))
    (hBempty : ledger addrB = none) :
    addrA ≠ addrB ∧
    Prog.submitWish hash onCurve true ownB title addrB funds ledger =
      .ok (fun a => if a = addrB then some (encodeWish ownB title) else ledger a) ∧
    (fun a => if a = addrB then some (encodeWish ownB title) else ledger a) addrA
      = some (encodeWish ownA title) := by
  have hAspec := findBumpAux_eq_some hash onCurve [WISH_NS, ownA, title] 255 addrA bumpA hA
  have hBspec := findBumpAux_eq_some hash onCurve [WISH_NS, ownB, title] 255 addrB bumpB hB
  have hne : addrA ≠ addrB := by
    rw [hAspec.1, hBspec.1]
    exact hcoll bumpA hAspec.2.2.1 bumpB hBspec.2.2.1
  refine ⟨hne, submitWish_ok hash onCurve ownB title addrB bumpB funds ledger
    hB hfit hfunds hBempty, ?_⟩
  show (if addrA = addrB then some (encodeWish ownB title) else ledger addrA)
    = some (encodeWish ownA title)
  rw [if_neg hne]
  exact hAocc

theorem distinct_owners_distinct_addresses_witness :
    Prog.submitWish W.offHash W.noCurve true W.ownerB W.titleW 131327 300
      (fun a => if a = 65791 then some (encodeWish W.ownerA W.titleW) else none) =
      .ok (fun a => if a = 131327 then some (encodeWish W.ownerB W.titleW)
        else if a = 65791 then some (encodeWish W.ownerA W.titleW) else none) :=
  (distinct_owners_distinct_addresses W.offHash W.noCurve W.ownerA W.ownerB W.titleW
    65791 255 131327 255 300
    (fun a => if a = 65791 then some (encodeWish W.ownerA W.titleW) else none)
    (W.offHash_nocoll W.titleW) (by decide) (by decide) (by decide) (by decide)
    (by simp) (by simp)).2.1

theorem submitWish_tooLong (hash : HashFn) (onCurve : CurveTest)
    (owner t : Bytes) (addr : Addr) (bump funds : Nat) (ledger : Ledger)
    (hpda : findWishPDA hash onCurve owner t = some (addr, bump))
    (hbig : ACCOUNT_CAPACITY < recordSize t) :
    Prog.submitWish hash onCurve true owner t addr funds ledger
      = .error .TitleTooLong := by
  rw [Prog.submitWish, if_neg (fun h => h rfl), hpda]
  simp only
  rw [if_neg (fun h => h rfl), if_pos hbig]

/-- C8: Title length boundary.  A title whose encoded record size exactly
equals the account's maximum capacity is accepted by Create; a title one
byte longer fails with `TitleTooLong`; and the storage layer itself rejects
every title whose encoded size would overflow the allocated capacity,
independently of the client-side character bound. -/
theorem title_length_boundary (hash : HashFn) (onCurve : CurveTest) (owner : Bytes)
    (t1 t2 : Bytes) (addr1 bump1 addr2 bump2 funds : Nat) (ledger : Ledger)
    (h1len : recordSize t1 = ACCOUNT_CAPACITY)
    (h1pda : findWishPDA hash onCurve owner t1 = some (addr1, bump1))
    (h1empty : ledger addr1 = none)
    (h1funds : depositFor t1 ≤ funds)
    (h2len : recordSize t2 = ACCOUNT_CAPACITY + 1)
    (h2pda : findWishPDA hash onCurve owner t2 = some (addr2, bump2)) :
    Prog.submitWish hash onCurve true owner t1 addr1 funds ledger =
      .ok (fun a => if a = addr1 then some (encodeWish owner t1) else ledger a) ∧
    Prog.submitWish hash onCurve true owner t2 addr2 funds ledger
      = .error .TitleTooLong ∧
    (∀ t addr bump, findWishPDA hash onCurve owner t = some (addr, bump) →
      ACCOUNT_CAPACITY < recordSize t →
      Prog.submitWish hash onCurve true owner t addr funds ledger
        = .error .TitleTooLong) := by
  refine ⟨submitWish_ok hash onCurve owner t1 addr1 bump1 funds ledger
    h1pda (by omega) h1funds h1empty, ?_, ?_⟩
  · exact submitWish_tooLong hash onCurve owner t2 addr2 bump2 funds ledger
      h2pda (by omega)
  · intro t addr bump hpda hbig
    exact submitWish_tooLong hash onCurve owner t addr bump funds ledger hpda hbig

set_option maxRecDepth 4000 in
theorem title_length_boundary_witness :
    Prog.submitWish W.offHash W.noCurve true W.ownerA (List.replicate 201 7)
      65791 244 emptyLedger = .error .TitleTooLong :=
  (title_length_boundary W.offHash W.noCurve W.ownerA (List.replicate 200 7)
    (List.replicate 201 7) 65791 255 65791 255 244 emptyLedger
    (by decide) (by decide) rfl (by decide) (by decide) (by decide)).2.1

theorem memcmp_encodeWish (o t : Bytes) (ho : o.length = 32) :
    Client.memcmpOwnerAt8 o (encodeWish o t) = true := by
  rw [Client.memcmpOwnerAt8]
  have h := storedOwner_encodeWish o t ho
  rw [storedOwner] at h
  rw [h]
  simp

/-- C9: Enumeration of one owner's wishes is a linear scan filtering
records by the owner field at its fixed offset right after the
discriminator: every entry of the returned list has its stored owner equal
to the queried owner, and every account of the program holding an encoded
wish record of that owner appears in the returned list. -/
theorem fetchWishes_owner_scan (owner : Bytes) (accounts : List (Addr × Bytes)) :
    (∀ w ∈ Client.fetchWishes owner accounts, w.account.user = owner) ∧
    (∀ addr o t, (addr, encodeWish o t) ∈ accounts → o = owner →
      o.length = 32 → t.length ≤ MAX_TITLE_LEN →
      WishAccount.mk addr (WishData.mk o t) ∈ Client.fetchWishes owner accounts) := by
  constructor
  · intro w hw
    rw [Client.fetchWishes] at hw
    have hw' := List.mem_mergeSort.mp hw
    have hmem := (List.mem_filter.mp hw').2
    simpa using hmem
  · intro addr o t hmem ho hol htl
    subst ho
    rw [Client.fetchWishes]
    apply List.mem_mergeSort.mpr
    apply List.mem_filter.mpr
    refine ⟨?_, decide_eq_true rfl⟩
    apply List.mem_filterMap.mpr
    refine ⟨(addr, encodeWish o t), ?_, ?_⟩
    · exact List.mem_filter.mpr ⟨hmem, memcmp_encodeWish o t hol⟩
    · have hdec : decodeWish (encodeWish o t) = .ok (o, t) :=
        decode_encodeWish o t hol (by
          have : MAX_TITLE_LEN = 200 := rfl
          omega)
      simp only [hdec]

theorem fetchWishes_owner_scan_witness :
    WishAccount.mk 65791 (WishData.mk W.ownerA W.titleW) ∈
      Client.fetchWishes W.ownerA [(65791, encodeWish W.ownerA W.titleW)] :=
  (fetchWishes_owner_scan W.ownerA [(65791, encodeWish W.ownerA W.titleW)]).2
    65791 W.ownerA W.titleW (by simp) rfl (by decide) (by decide)

/-- C10: Client-side delete guard.  When the wish public key passed to the
client's `deleteWish` is absent from the fetched wish list, or the matching
entry's stored user differs from the connected signer, `deleteWish` throws
"You can only delete your own wishes" before any transaction is built, so
the ledger is left unchanged. -/
theorem client_delete_guard (hash : HashFn) (onCurve : CurveTest) (pk : Bytes)
    (wishes : List WishAccount) (title : Bytes) (wishPublicKey pda : Addr) (bump : Nat)
    (hpda : findWishPDA hash onCurve pk title = some (pda, bump))
    (hguard : (∀ w ∈ wishes, w.publicKey ≠ wishPublicKey) ∨
      (∀ w ∈ wishes, w.publicKey = wishPublicKey → w.account.user ≠ pk)) :
    Client.deleteWish hash onCurve true (some pk) wishes title wishPublicKey =
      .error "You can only delete your own wishes" ∧
    ∀ ledger : Ledger, Client.resultLedger hash onCurve
      (Client.deleteWish hash onCurve true (some pk) wishes title wishPublicKey) ledger
        = ledger := by
  have herr : Client.deleteWish hash onCurve true (some pk) wishes title wishPublicKey =
      .error "You can only delete your own wishes" := by
    rw [Client.deleteWish, if_neg (fun h => h rfl)]
    rw [hpda]
    simp only
    rcases hfind : wishes.find? (fun w => decide (w.publicKey = wishPublicKey)) with _ | w
    · rw [hfind]
    · rw [hfind]
      simp only
      have hmem := List.mem_of_find?_eq_some hfind
      have hpred := List.find?_some hfind
      have hneq : w.account.user ≠ pk := by
        rcases hguard with hab | hu
        · exact absurd (of_decide_eq_true hpred) (hab w hmem)
        · exact hu w hmem (of_decide_eq_true hpred)
      rw [if_pos hneq]
  refine ⟨herr, fun ledger => ?_⟩
  rw [herr]
  rfl

theorem client_delete_guard_witness :
    Client.deleteWish W.offHash W.noCurve true (some W.ownerB)
      [WishAccount.mk 65791 (WishData.mk W.ownerA W.titleW)] W.titleW 65791 =
      .error "You can only delete your own wishes" :=
  (client_delete_guard W.offHash W.noCurve W.ownerB
    [WishAccount.mk 65791 (WishData.mk W.ownerA W.titleW)] W.titleW 65791 131327 255
    (by decide) (Or.inr (by decide))).1

end WallOfWish
